import Mathlib

/-
Verification of the price-tracker core: shallow embedding of the
catalog, observation, normalization and comparison logic of
src/app.py and src/price_tracker/repos/*, with theorems settling the
spec's claims about identity, idempotence, normalization, trends,
cheapest selection, shopping-list ranking and error handling.

Python floats are embedded as exact rationals (ℚ); machine ints as ℤ;
SQL tables as lists of row records in insertion (rowid) order.
-/

namespace PriceTracker

/-- Embedding of Python `str.strip()` (drop leading and trailing
whitespace), written over the character list so it reduces in the
kernel. -/
def pyStrip (s : String) : String :=
  ⟨((s.data.dropWhile Char.isWhitespace).reverse.dropWhile Char.isWhitespace).reverse⟩

/-- Embedding of Python `str.lower()` (per-character lowercasing). -/
def pyLower (s : String) : String :=
  ⟨s.data.map Char.toLower⟩

/-- Embedding of `compute_normalized_unit_price` (src/app.py lines
124-141): price in cents plus a pack (size, unit) to an exact
euros-per-normalized-unit value, or `none` when the size is
non-positive or the unit (lowercased, stripped) is unsupported. -/
def compute_normalized_unit_price (price_cents : Int) (size : ℚ) (unit : String) :
    Option (ℚ × String) :=
  if size ≤ 0 then none
  else
    let eur : ℚ := (price_cents : ℚ) / 100
    let u := pyStrip (pyLower unit)
    if u = "l" then some (eur / size, "l")
    else if u = "ml" then some (eur / (size / 1000), "l")
    else if u = "kg" then some (eur / size, "kg")
    else if u = "g" then some (eur / (size / 1000), "kg")
    else if u = "pcs" ∨ u = "kos" then some (eur / size, "pcs")
    else none

/-- Embedding of `_trend` (src/app.py lines 143-152): two price points
in cents to (arrow, delta in cents, percent change). The code renders
"up" as "↑", "down" as "↓" and "flat" as "→". -/
def trend (prev_cents last_cents : Int) : String × Int × ℚ :=
  let delta := last_cents - prev_cents
  let arrow := if delta > 0 then "↑" else if delta < 0 then "↓" else "→"
  let pct : ℚ := if prev_cents > 0 then (delta : ℚ) / (prev_cents : ℚ) * 100 else 0
  (arrow, delta, pct)

/-- Claim C2 counterexample: the claim says any unit other than the six
literal strings l, ml, kg, g, pcs, kos yields `None`, but the code
lowercases and strips the unit first, so the unlisted unit "L" is
normalized rather than rejected. -/
theorem compute_normalized_unit_price_counterexample :
    "L" ∉ (["l", "ml", "kg", "g", "pcs", "kos"] : List String) ∧
    compute_normalized_unit_price 100 1 "L" = some (1, "l") := by
  constructor
  · decide
  · have h : pyStrip (pyLower "L") = "l" := by decide
    norm_num [compute_normalized_unit_price, h]

/-- Claim C2 (amended): the unit normalizer implements the policy table
with units matched after lowercasing and trimming: non-positive size
gives `none`; "l" gives price/100/size tagged "l"; "ml" gives
price/100/(size/1000) tagged "l"; "kg" and "g" likewise tagged "kg";
"pcs"/"kos" give price/100/size tagged "pcs"; any unit whose lowercased
trimmed form is none of these gives `none`; and the spec's five example
evaluations hold. -/
theorem compute_normalized_unit_price_policy (price_cents : Int) (size : ℚ) (unit : String) :
    (size ≤ 0 → compute_normalized_unit_price price_cents size unit = none) ∧
    (0 < size →
      (pyStrip (pyLower unit) = "l" →
        compute_normalized_unit_price price_cents size unit
          = some ((price_cents : ℚ) / 100 / size, "l")) ∧
      (pyStrip (pyLower unit) = "ml" →
        compute_normalized_unit_price price_cents size unit
          = some ((price_cents : ℚ) / 100 / (size / 1000), "l")) ∧
      (pyStrip (pyLower unit) = "kg" →
        compute_normalized_unit_price price_cents size unit
          = some ((price_cents : ℚ) / 100 / size, "kg")) ∧
      (pyStrip (pyLower unit) = "g" →
        compute_normalized_unit_price price_cents size unit
          = some ((price_cents : ℚ) / 100 / (size / 1000), "kg")) ∧
      ((pyStrip (pyLower unit) = "pcs" ∨ pyStrip (pyLower unit) = "kos") →
        compute_normalized_unit_price price_cents size unit
          = some ((price_cents : ℚ) / 100 / size, "pcs")) ∧
      (pyStrip (pyLower unit) ∉ (["l", "ml", "kg", "g", "pcs", "kos"] : List String) →
        compute_normalized_unit_price price_cents size unit = none)) ∧
    compute_normalized_unit_price 199 1 "l" = some (199/100, "l") ∧
    compute_normalized_unit_price 199 500 "ml" = some (398/100, "l") ∧
    compute_normalized_unit_price 100 2 "kg" = some (50/100, "kg") ∧
    compute_normalized_unit_price 100 0 "l" = none ∧
    compute_normalized_unit_price 100 1 "box" = none := by
  have exl : pyStrip (pyLower "l") = "l" := by decide
  have exml : pyStrip (pyLower "ml") = "ml" := by decide
  have exkg : pyStrip (pyLower "kg") = "kg" := by decide
  have exbox : pyStrip (pyLower "box") = "box" := by decide
  have ne1 : ("ml" : String) ≠ "l" := by decide
  have ne2 : ("kg" : String) ≠ "l" := by decide
  have ne3 : ("kg" : String) ≠ "ml" := by decide
  have nb1 : ("box" : String) ≠ "l" := by decide
  have nb2 : ("box" : String) ≠ "ml" := by decide
  have nb3 : ("box" : String) ≠ "kg" := by decide
  have nb4 : ("box" : String) ≠ "g" := by decide
  have nb5 : ("box" : String) ≠ "pcs" := by decide
  have nb6 : ("box" : String) ≠ "kos" := by decide
  refine ⟨?_, ?_,
    by norm_num [compute_normalized_unit_price, exl],
    by norm_num [compute_normalized_unit_price, exml, ne1],
    by norm_num [compute_normalized_unit_price, exkg, ne2, ne3],
    by norm_num [compute_normalized_unit_price],
    by norm_num [compute_normalized_unit_price, exbox, nb1, nb2, nb3, nb4, nb5, nb6]⟩
  · intro h
    simp [compute_normalized_unit_price, h]
  · intro hpos
    have hns : ¬ size ≤ 0 := not_le.mpr hpos
    refine ⟨?_, ?_, ?_, ?_, ?_, ?_⟩ <;> intro hu
    · simp [compute_normalized_unit_price, hns, hu]
    · simp [compute_normalized_unit_price, hns, hu]
    · simp [compute_normalized_unit_price, hns, hu]
    · simp [compute_normalized_unit_price, hns, hu]
    · rcases hu with hu | hu <;> simp [compute_normalized_unit_price, hns, hu]
    · simp only [List.mem_cons, List.not_mem_nil, or_false, not_or] at hu
      obtain ⟨h1, h2, h3, h4, h5, h6⟩ := hu
      simp [compute_normalized_unit_price, hns, h1, h2, h3, h4, h5, h6]

/-- Claim C2 witness: the policy theorem evaluated at the spec's first
example input. -/
theorem compute_normalized_unit_price_policy_witness :
    (0 : ℚ) < 1 ∧ pyStrip (pyLower "l") = "l" ∧
    compute_normalized_unit_price 199 1 "l" = some ((199 : ℚ) / 100 / 1, "l") :=
  ⟨by decide, by decide,
    ((compute_normalized_unit_price_policy 199 1 "l").2.1 (by decide)).1 (by decide)⟩

/-- Claim C5: the trend of two price points reports delta = last - prev,
the arrow "↑" (up) exactly when delta > 0, "↓" (down) exactly when
delta < 0, "→" (flat) exactly when delta = 0, and the percentage
delta/prev*100 when prev > 0 and 0 otherwise, so a previous price of 0
never divides by zero; the spec's three examples evaluate as stated. -/
theorem trend_spec (prev_cents last_cents : Int) :
    (trend prev_cents last_cents).2.1 = last_cents - prev_cents ∧
    ((trend prev_cents last_cents).1 = "↑" ↔ last_cents - prev_cents > 0) ∧
    ((trend prev_cents last_cents).1 = "↓" ↔ last_cents - prev_cents < 0) ∧
    ((trend prev_cents last_cents).1 = "→" ↔ last_cents - prev_cents = 0) ∧
    (prev_cents > 0 →
      (trend prev_cents last_cents).2.2
        = ((last_cents - prev_cents : ℤ) : ℚ) / (prev_cents : ℚ) * 100) ∧
    (¬ prev_cents > 0 → (trend prev_cents last_cents).2.2 = 0) ∧
    trend 100 150 = ("↑", 50, 50) ∧
    trend 100 100 = ("→", 0, 0) ∧
    (trend 0 50).2.2 = 0 := by
  refine ⟨rfl, ?_, ?_, ?_, ?_, ?_,
    by norm_num [trend], by norm_num [trend], by norm_num [trend]⟩
  · constructor
    · intro h
      by_contra hd
      push_neg at hd
      rcases lt_or_eq_of_le hd with hlt | heq
      · simp [trend, not_lt.mpr hd, hlt] at h
      · simp [trend, ← heq] at h
    · intro h
      simp [trend, h]
  · constructor
    · intro h
      by_contra hd
      push_neg at hd
      rcases lt_or_eq_of_le hd with hlt | heq
      · simp [trend, hlt] at h
      · simp [trend, heq.symm] at h
    · intro h
      simp [trend, h, not_lt.mpr (le_of_lt h)]
  · constructor
    · intro h
      by_contra hd
      rcases lt_or_gt_of_ne hd with hlt | hgt
      · simp [trend, hlt, not_lt.mpr (le_of_lt hlt)] at h
      · simp [trend, hgt] at h
    · intro h
      simp [trend, h]
  · intro h
    simp [trend, h]
  · intro h
    simp [trend, h]

/-- Claim C5 witness: the trend theorem evaluated at the spec's first
example (prev=100, last=150). -/
theorem trend_spec_witness :
    (100 : Int) > 0 ∧ (trend 100 150).2.2 = ((150 - 100 : ℤ) : ℚ) / (100 : ℚ) * 100 :=
  ⟨by decide, (trend_spec 100 150).2.2.2.2.1 (by decide)⟩

/-- Python exception kinds raised by the repository layer: `value` is
ValueError (validation), `runtime` is RuntimeError (invariant
violation). -/
inductive RepoError where
  | value (msg : String)
  | runtime (msg : String)
deriving DecidableEq

/-- A row of the price_observation table
(src/price_tracker/repos/observation_repo.py). -/
structure PriceObservationRow where
  store_item_id : Int
  observed_on : String
  price_cents : Int
  title_raw : Option String
deriving DecidableEq

/-- The price_observation table, rows in insertion (rowid) order. -/
abbrev ObsDB := List PriceObservationRow

/-- The (store_item_id, observed_on) identity test used by the table's
uniqueness constraint. -/
def obsKey (sid : Int) (d : String) (r : PriceObservationRow) : Bool :=
  decide (r.store_item_id = sid ∧ r.observed_on = d)

/-- Embedding of `ObservationRepo.insert_daily`
(src/price_tracker/repos/observation_repo.py lines 21-41): validate,
then INSERT OR IGNORE returning whether a row was created. Modelled
from the spec for the missing schema.sql: the INSERT OR IGNORE dedup
key is the uniqueness constraint PriceObservation unique on
(store_item_id, observed_on) of spec sections 3 and 6. -/
def insert_daily (db : ObsDB) (store_item_id : Int) (observed_on : String)
    (price_cents : Int) (title_raw : Option String) : Except RepoError (Bool × ObsDB) :=
  let d := pyStrip observed_on
  if d = "" then .error (.value "observed_on cannot be empty (expected YYYY-MM-DD)")
  else if price_cents < 0 then .error (.value "price_cents must be >= 0")
  else if db.any (obsKey store_item_id d) then .ok (false, db)
  else .ok (true, db ++ [⟨store_item_id, d, price_cents, title_raw⟩])

/-- A row of the canonical_item table
(src/price_tracker/repos/canonical_repo.py). -/
structure CanonicalItemRow where
  id : Nat
  family_key : String
  label : String
  size : ℚ
  unit : String
deriving DecidableEq

/-- The canonical_item table (rows in rowid order) plus the next
autoincrement id. -/
structure CatalogDB where
  rows : List CanonicalItemRow
  next_id : Nat
deriving DecidableEq

/-- The (family_key, size, unit) identity test of the canonical_item
lookups. -/
def canonKey (fk : String) (sz : ℚ) (u : String) (r : CanonicalItemRow) : Bool :=
  decide (r.family_key = fk ∧ r.size = sz ∧ r.unit = u)

/-- Well-formedness a SQLite table with an integer primary key always
has: row ids are distinct and below the next autoincrement id. -/
def CatalogWf (db : CatalogDB) : Prop :=
  (db.rows.map (fun r => r.id)).Nodup ∧ ∀ r ∈ db.rows, r.id < db.next_id

instance (db : CatalogDB) : Decidable (CatalogWf db) := by
  unfold CatalogWf
  infer_instance

/-- Embedding of `CanonicalItemRepo.upsert`
(src/price_tracker/repos/canonical_repo.py lines 10-62): trim, validate
(ValueError before any write), look up the first row matching
(family_key, size, unit); if found UPDATE label/size/unit on that id
and return it, else INSERT and re-select, with the RuntimeError branch
when the re-select finds nothing. -/
def upsert (db : CatalogDB) (family_key label : String) (size : ℚ) (unit : String) :
    Except RepoError (Nat × CatalogDB) :=
  let fk := pyStrip family_key
  let lb := pyStrip label
  let u := pyStrip unit
  if fk = "" then .error (.value "family_key cannot be empty")
  else if lb = "" then .error (.value "canonical label cannot be empty")
  else if size ≤ 0 then .error (.value "canonical size must be > 0")
  else if u = "" then .error (.value "canonical unit cannot be empty")
  else
    match db.rows.find? (canonKey fk size u) with
    | some row =>
        let rows2 := db.rows.map fun r =>
          if r.id = row.id then { r with label := lb, size := size, unit := u } else r
        .ok (row.id, ⟨rows2, db.next_id⟩)
    | none =>
        let rows2 := db.rows ++ [⟨db.next_id, fk, lb, size, u⟩]
        match rows2.find? (canonKey fk size u) with
        | some row2 => .ok (row2.id, ⟨rows2, db.next_id + 1⟩)
        | none => .error (.runtime "failed to fetch canonical_item after insert")

lemma find?_append_none {α : Type} (p : α → Bool) (l₁ l₂ : List α)
    (h : l₁.find? p = none) : (l₁ ++ l₂).find? p = l₂.find? p := by
  induction l₁ with
  | nil => rfl
  | cons a t ih =>
      rw [List.find?] at h
      cases hp : p a with
      | true => simp [hp] at h
      | false =>
          rw [hp] at h
          simp only [List.cons_append, List.find?, hp]
          exact ih h

lemma canonKey_self (fk : String) (sz : ℚ) (u : String) (i : Nat) (lb : String) :
    canonKey fk sz u ⟨i, fk, lb, sz, u⟩ = true := by
  simp [canonKey]

/-- Updating (by id) the first row a find? returns, in a way that keeps
that row matching, leaves it the first match. -/
lemma find?_map_update (l : List CanonicalItemRow) (k : CanonicalItemRow → Bool)
    (x : CanonicalItemRow) (f : CanonicalItemRow → CanonicalItemRow)
    (hfind : l.find? k = some x)
    (hid : ∀ r ∈ l, r.id = x.id → r = x)
    (hfx : k (f x) = true) :
    (l.map fun r => if r.id = x.id then f r else r).find? k = some (f x) := by
  induction l with
  | nil => simp at hfind
  | cons a t ih =>
      rw [List.find?] at hfind
      cases ha : k a with
      | true =>
          rw [ha] at hfind
          simp only [Option.some.injEq] at hfind
          subst hfind
          simp [List.find?, hfx]
      | false =>
          rw [ha] at hfind
          have hane : a.id ≠ x.id := by
            intro hEq
            have hax : a = x := hid a (List.mem_cons_self a t) hEq
            have hkx := List.find?_some hfind
            rw [← hax, ha] at hkx
            exact Bool.noConfusion hkx
          simp only [List.map_cons, if_neg hane, List.find?, ha]
          exact ih hfind (fun r hr hEq => hid r (List.mem_cons_of_mem a hr) hEq)

/-- Filtering on an id commutes with an id-preserving update of that
id's rows. -/
lemma filter_id_map_update (l : List CanonicalItemRow) (cid : Nat)
    (f : CanonicalItemRow → CanonicalItemRow) (hf : ∀ r, (f r).id = r.id) :
    (l.map fun r => if r.id = cid then f r else r).filter (fun r => r.id = cid)
      = (l.filter (fun r => r.id = cid)).map f := by
  induction l with
  | nil => rfl
  | cons a t ih =>
      by_cases ha : a.id = cid
      · simp only [List.map_cons, if_pos ha, List.filter_cons]
        rw [if_pos (by simpa [hf] using ha), if_pos (by simpa using ha)]
        simp [ih]
      · simp only [List.map_cons, if_neg ha, List.filter_cons]
        rw [if_neg (by simpa using ha), if_neg (by simpa using ha)]
        exact ih

/-- In a table with distinct ids, filtering on a member's id yields
exactly that member. -/
lemma filter_id_singleton (l : List CanonicalItemRow) (x : CanonicalItemRow)
    (hx : x ∈ l) (hnd : (l.map (fun r => r.id)).Nodup) :
    l.filter (fun r => r.id = x.id) = [x] := by
  induction l with
  | nil => simp at hx
  | cons a t ih =>
      simp only [List.map_cons, List.nodup_cons] at hnd
      obtain ⟨hna, hndt⟩ := hnd
      rcases List.mem_cons.mp hx with rfl | hxt
      · have ht : t.filter (fun r => r.id = x.id) = [] := by
          apply List.filter_eq_nil_iff.mpr
          intro r hr
          simp only [decide_eq_true_eq]
          intro hEq
          exact hna (hEq ▸ List.mem_map_of_mem (fun s => s.id) hr)
        simp [List.filter_cons, ht]
      · have hane : ¬ a.id = x.id := by
          intro hEq
          exact hna (hEq ▸ List.mem_map_of_mem (fun s => s.id) hxt)
        have hcond : ¬ (decide (a.id = x.id) = true) := by simp [hane]
        rw [List.filter_cons, if_neg hcond]
        exact ih hxt hndt

lemma id_unique_of_wf (l : List CanonicalItemRow)
    (hnd : (l.map (fun r => r.id)).Nodup) (x : CanonicalItemRow) (hx : x ∈ l) :
    ∀ r ∈ l, r.id = x.id → r = x := by
  intro r hr hEq
  have : r ∈ l.filter (fun s => s.id = x.id) := by
    simp only [List.mem_filter, decide_eq_true_eq]
    exact ⟨hr, hEq⟩
  rw [filter_id_singleton l x hx hnd] at this
  simpa using this

/-- Claim C1: for a non-empty date and non-negative prices, the first
`insert_daily` on a (store_item_id, observed_on) key not yet in the
table creates the row and returns true; a second call with the same key
(any price/title) returns false and leaves the table, hence the stored
row's price_cents and title_raw, unchanged — at most one observation
per tracked item per calendar day. -/
theorem insert_daily_idempotent (db : ObsDB) (sid : Int) (d : String)
    (pc pc2 : Int) (t t2 : Option String)
    (hd : pyStrip d ≠ "") (hpc : 0 ≤ pc) (hpc2 : 0 ≤ pc2)
    (hfresh : db.any (obsKey sid (pyStrip d)) = false) :
    insert_daily db sid d pc t
      = Except.ok (true, db ++ [⟨sid, pyStrip d, pc, t⟩]) ∧
    insert_daily (db ++ [⟨sid, pyStrip d, pc, t⟩]) sid d pc2 t2
      = Except.ok (false, db ++ [⟨sid, pyStrip d, pc, t⟩]) ∧
    (db ++ [(⟨sid, pyStrip d, pc, t⟩ : PriceObservationRow)]).find? (obsKey sid (pyStrip d))
      = some ⟨sid, pyStrip d, pc, t⟩ := by
  have hrow : obsKey sid (pyStrip d) ⟨sid, pyStrip d, pc, t⟩ = true := by
    simp [obsKey]
  refine ⟨?_, ?_, ?_⟩
  · simp only [insert_daily]
    rw [if_neg hd, if_neg (not_lt.mpr hpc), if_neg (by simp [hfresh])]
  · simp only [insert_daily]
    rw [if_neg hd, if_neg (not_lt.mpr hpc2),
      if_pos (by simp [List.any_append, hrow])]
  · have hnone : db.find? (obsKey sid (pyStrip d)) = none := by
      rw [List.find?_eq_none]
      intro x hx
      have hall := List.any_eq_false.mp hfresh
      simpa using hall x hx
    rw [find?_append_none _ _ _ hnone]
    simp [List.find?, hrow]

/-- Claim C1 witness: an empty table, item 7, 2026-10-12, price 199
then a conflicting 250 on the same day. -/
theorem insert_daily_idempotent_witness :
    pyStrip "2026-10-12" ≠ "" ∧ (0 : Int) ≤ 199 ∧ (0 : Int) ≤ 250 ∧
    ([] : ObsDB).any (obsKey 7 (pyStrip "2026-10-12")) = false ∧
    insert_daily ([] : ObsDB) 7 "2026-10-12" 199 (some "Mleko")
      = Except.ok (true, [⟨7, pyStrip "2026-10-12", 199, some "Mleko"⟩]) := by
  refine ⟨by decide, by decide, by decide, by decide, ?_⟩
  have h := (insert_daily_idempotent ([] : ObsDB) 7 "2026-10-12" 199 250
    (some "Mleko") (some "Mleko") (by decide) (by decide) (by decide) (by decide)).1
  simpa using h

/-- Claim C9: canonical-item upsert raises a ValueError exactly when
the trimmed family_key, label or unit is empty or the size is
non-positive (the exception is raised before any SQL runs, so the
catalog is untouched), and on valid input it returns an id instead of
raising. -/
theorem canonical_upsert_validation (db : CatalogDB) (fk lb : String) (sz : ℚ) (u : String) :
    ((∃ m, upsert db fk lb sz u = Except.error (RepoError.value m)) ↔
      (pyStrip fk = "" ∨ pyStrip lb = "" ∨ sz ≤ 0 ∨ pyStrip u = "")) ∧
    ((pyStrip fk ≠ "" ∧ pyStrip lb ≠ "" ∧ 0 < sz ∧ pyStrip u ≠ "") →
      ∃ cid db2, upsert db fk lb sz u = Except.ok (cid, db2)) := by
  have hok : (pyStrip fk ≠ "" ∧ pyStrip lb ≠ "" ∧ 0 < sz ∧ pyStrip u ≠ "") →
      ∃ cid db2, upsert db fk lb sz u = Except.ok (cid, db2) := by
    rintro ⟨h1, h2, h3, h4⟩
    have h3' : ¬ sz ≤ 0 := not_le.mpr h3
    cases hf : db.rows.find? (canonKey (pyStrip fk) sz (pyStrip u)) with
    | some row =>
        refine ⟨row.id,
          ⟨db.rows.map fun r =>
            if r.id = row.id then { r with label := pyStrip lb, size := sz, unit := pyStrip u }
            else r, db.next_id⟩, ?_⟩
        simp only [upsert]
        rw [if_neg h1, if_neg h2, if_neg h3', if_neg h4, hf]
    | none =>
        have hfind2 :
            (db.rows ++ [(⟨db.next_id, pyStrip fk, pyStrip lb, sz, pyStrip u⟩ : CanonicalItemRow)]).find?
              (canonKey (pyStrip fk) sz (pyStrip u))
            = some ⟨db.next_id, pyStrip fk, pyStrip lb, sz, pyStrip u⟩ := by
          rw [find?_append_none _ _ _ hf]
          simp [List.find?, canonKey_self]
        refine ⟨db.next_id,
          ⟨db.rows ++ [⟨db.next_id, pyStrip fk, pyStrip lb, sz, pyStrip u⟩],
            db.next_id + 1⟩, ?_⟩
        simp only [upsert]
        rw [if_neg h1, if_neg h2, if_neg h3', if_neg h4, hf, hfind2]
  refine ⟨⟨?_, ?_⟩, hok⟩
  · rintro ⟨m, hm⟩
    by_contra hc
    push_neg at hc
    obtain ⟨h1, h2, h3, h4⟩ := hc
    obtain ⟨cid, db2, heq⟩ := hok ⟨h1, h2, h3, h4⟩
    rw [heq] at hm
    exact Except.noConfusion hm
  · intro hconds
    by_cases h1 : pyStrip fk = ""
    · exact ⟨_, by simp only [upsert]; rw [if_pos h1]⟩
    by_cases h2 : pyStrip lb = ""
    · exact ⟨_, by simp only [upsert]; rw [if_neg h1, if_pos h2]⟩
    by_cases h3 : sz ≤ 0
    · exact ⟨_, by simp only [upsert]; rw [if_neg h1, if_neg h2, if_pos h3]⟩
    have h4 : pyStrip u = "" := by
      rcases hconds with h | h | h | h
      · exact absurd h h1
      · exact absurd h h2
      · exact absurd h h3
      · exact h
    exact ⟨_, by simp only [upsert]; rw [if_neg h1, if_neg h2, if_neg h3, if_pos h4]⟩

/-- Claim C9 witness: the valid input ("milk", "Mleko 3.5", 1, "l") on
an empty catalog returns an id rather than raising. -/
theorem canonical_upsert_validation_witness :
    (pyStrip "milk" ≠ "" ∧ pyStrip "Mleko 3.5" ≠ "" ∧ (0 : ℚ) < 1 ∧ pyStrip "l" ≠ "") ∧
    ∃ cid db2, upsert ⟨[], 0⟩ "milk" "Mleko 3.5" 1 "l" = Except.ok (cid, db2) :=
  ⟨⟨by decide, by decide, by decide, by decide⟩,
    (canonical_upsert_validation ⟨[], 0⟩ "milk" "Mleko 3.5" 1 "l").2
      ⟨by decide, by decide, by decide, by decide⟩⟩

/-- The label/size/unit UPDATE of the upsert found-branch preserves row
ids, so it preserves the id column of the whole table. -/
lemma map_id_map_update (l : List CanonicalItemRow) (cid : Nat)
    (f : CanonicalItemRow → CanonicalItemRow) (hf : ∀ r, (f r).id = r.id) :
    ((l.map fun r => if r.id = cid then f r else r).map (fun r => r.id))
      = l.map (fun r => r.id) := by
  induction l with
  | nil => rfl
  | cons a t ih =>
      by_cases ha : a.id = cid <;> simp [ha, hf, ih]

/-- Claim C6: on a well-formed catalog, two upserts with the same
(family_key, size, unit) key and different labels return the same id,
the second call overwrites that id's stored label and adds no row; and
when the key was not yet present the first call inserts exactly one new
row and returns its fresh id. -/
theorem canonical_upsert_same_key (db : CatalogDB) (fk lb1 lb2 : String) (sz : ℚ)
    (u : String) (hwf : CatalogWf db) (h1 : pyStrip fk ≠ "") (h2 : pyStrip lb1 ≠ "")
    (h3 : pyStrip lb2 ≠ "") (h4 : 0 < sz) (h5 : pyStrip u ≠ "") :
    ∃ cid db1 db2,
      upsert db fk lb1 sz u = Except.ok (cid, db1) ∧
      upsert db1 fk lb2 sz u = Except.ok (cid, db2) ∧
      (db2.rows.filter (fun r => r.id = cid)).map (fun r => r.label) = [pyStrip lb2] ∧
      db2.rows.length = db1.rows.length ∧
      (db.rows.find? (canonKey (pyStrip fk) sz (pyStrip u)) = none →
        cid = db.next_id ∧ db1.rows.length = db.rows.length + 1) := by
  have h4' : ¬ sz ≤ 0 := not_le.mpr h4
  obtain ⟨hnd, hlt⟩ := hwf
  cases hf : db.rows.find? (canonKey (pyStrip fk) sz (pyStrip u)) with
  | some row =>
      have hkrow := List.find?_some hf
      simp only [canonKey, decide_eq_true_eq] at hkrow
      have hmem : row ∈ db.rows := List.mem_of_find?_eq_some hf
      have hk1 : canonKey (pyStrip fk) sz (pyStrip u)
          { row with label := pyStrip lb1, size := sz, unit := pyStrip u } = true := by
        simp [canonKey, hkrow.1]
      have hid := id_unique_of_wf db.rows hnd row hmem
      have hfind1 :
          (db.rows.map fun r =>
            if r.id = row.id then { r with label := pyStrip lb1, size := sz, unit := pyStrip u }
            else r).find? (canonKey (pyStrip fk) sz (pyStrip u))
          = some { row with label := pyStrip lb1, size := sz, unit := pyStrip u } :=
        find?_map_update db.rows _ row
          (fun r => { r with label := pyStrip lb1, size := sz, unit := pyStrip u }) hf hid hk1
      have heq1 : upsert db fk lb1 sz u = Except.ok (row.id,
          ⟨db.rows.map fun r =>
            if r.id = row.id then { r with label := pyStrip lb1, size := sz, unit := pyStrip u }
            else r, db.next_id⟩) := by
        simp only [upsert]
        rw [if_neg h1, if_neg h2, if_neg h4', if_neg h5, hf]
      have heq2 : upsert
          ⟨db.rows.map fun r =>
            if r.id = row.id then { r with label := pyStrip lb1, size := sz, unit := pyStrip u }
            else r, db.next_id⟩ fk lb2 sz u
          = Except.ok (row.id,
            ⟨(db.rows.map fun r =>
                if r.id = row.id then { r with label := pyStrip lb1, size := sz, unit := pyStrip u }
                else r).map fun r =>
              if r.id = row.id then { r with label := pyStrip lb2, size := sz, unit := pyStrip u }
              else r, db.next_id⟩) := by
        simp only [upsert]
        rw [if_neg h1, if_neg h3, if_neg h4', if_neg h5, hfind1]
      have hnd1 : (((db.rows.map fun r =>
          if r.id = row.id then { r with label := pyStrip lb1, size := sz, unit := pyStrip u }
          else r)).map (fun r => r.id)).Nodup := by
        rw [map_id_map_update db.rows row.id
          (fun r => { r with label := pyStrip lb1, size := sz, unit := pyStrip u })
          (fun r => rfl)]
        exact hnd
      have hmem1 : ({ row with label := pyStrip lb1, size := sz, unit := pyStrip u }
          : CanonicalItemRow) ∈ (db.rows.map fun r =>
            if r.id = row.id then { r with label := pyStrip lb1, size := sz, unit := pyStrip u }
            else r) := List.mem_of_find?_eq_some hfind1
      have hfil1 : (db.rows.map fun r =>
          if r.id = row.id then { r with label := pyStrip lb1, size := sz, unit := pyStrip u }
          else r).filter (fun r => r.id = row.id)
          = [{ row with label := pyStrip lb1, size := sz, unit := pyStrip u }] :=
        filter_id_singleton _ _ hmem1 hnd1
      have hfil2 : ((((db.rows.map fun r =>
          if r.id = row.id then { r with label := pyStrip lb1, size := sz, unit := pyStrip u }
          else r)).map fun r =>
            if r.id = row.id then { r with label := pyStrip lb2, size := sz, unit := pyStrip u }
            else r).filter (fun r => r.id = row.id)).map (fun r => r.label)
          = [pyStrip lb2] := by
        rw [filter_id_map_update _ row.id
          (fun r => { r with label := pyStrip lb2, size := sz, unit := pyStrip u })
          (fun r => rfl), hfil1]
        simp
      exact ⟨row.id, _, _, heq1, heq2, hfil2, by simp,
        fun hnone => Option.noConfusion hnone⟩
  | none =>
      have hfind1 : (db.rows ++
            [(⟨db.next_id, pyStrip fk, pyStrip lb1, sz, pyStrip u⟩ : CanonicalItemRow)]).find?
            (canonKey (pyStrip fk) sz (pyStrip u))
          = some ⟨db.next_id, pyStrip fk, pyStrip lb1, sz, pyStrip u⟩ := by
        rw [find?_append_none _ _ _ hf]
        simp [List.find?, canonKey_self]
      have heq1 : upsert db fk lb1 sz u = Except.ok (db.next_id,
          ⟨db.rows ++ [(⟨db.next_id, pyStrip fk, pyStrip lb1, sz, pyStrip u⟩ : CanonicalItemRow)],
            db.next_id + 1⟩) := by
        simp only [upsert]
        rw [if_neg h1, if_neg h2, if_neg h4', if_neg h5, hf, hfind1]
      have hnd1 : (((db.rows ++
          [(⟨db.next_id, pyStrip fk, pyStrip lb1, sz, pyStrip u⟩ : CanonicalItemRow)])).map
            (fun r => r.id)).Nodup := by
        rw [List.map_append]
        refine List.Nodup.append hnd (by simp) ?_
        intro a ha hb
        obtain ⟨r, hr, hra⟩ := List.mem_map.mp ha
        simp only [List.map_cons, List.map_nil, List.mem_singleton] at hb
        have : a < db.next_id := hra ▸ hlt r hr
        omega
      have hmem1 : (⟨db.next_id, pyStrip fk, pyStrip lb1, sz, pyStrip u⟩ : CanonicalItemRow)
          ∈ db.rows ++ [(⟨db.next_id, pyStrip fk, pyStrip lb1, sz, pyStrip u⟩ : CanonicalItemRow)] := by
        simp
      have heq2 : upsert
          ⟨db.rows ++ [(⟨db.next_id, pyStrip fk, pyStrip lb1, sz, pyStrip u⟩ : CanonicalItemRow)],
            db.next_id + 1⟩ fk lb2 sz u
          = Except.ok (db.next_id,
            ⟨(db.rows ++
              [(⟨db.next_id, pyStrip fk, pyStrip lb1, sz, pyStrip u⟩ : CanonicalItemRow)]).map
                fun r =>
                  if r.id = db.next_id then
                    { r with label := pyStrip lb2, size := sz, unit := pyStrip u }
                  else r, db.next_id + 1⟩) := by
        simp only [upsert]
        rw [if_neg h1, if_neg h3, if_neg h4', if_neg h5, hfind1]
      have hfil1 : (db.rows ++
            [(⟨db.next_id, pyStrip fk, pyStrip lb1, sz, pyStrip u⟩ : CanonicalItemRow)]).filter
            (fun r => r.id = db.next_id)
          = [⟨db.next_id, pyStrip fk, pyStrip lb1, sz, pyStrip u⟩] :=
        filter_id_singleton _ _ hmem1 hnd1
      have hfil2 : ((((db.rows ++
            [(⟨db.next_id, pyStrip fk, pyStrip lb1, sz, pyStrip u⟩ : CanonicalItemRow)])).map
              fun r =>
                if r.id = db.next_id then
                  { r with label := pyStrip lb2, size := sz, unit := pyStrip u }
                else r).filter (fun r => r.id = db.next_id)).map (fun r => r.label)
          = [pyStrip lb2] := by
        rw [filter_id_map_update _ db.next_id
          (fun r => { r with label := pyStrip lb2, size := sz, unit := pyStrip u })
          (fun r => rfl), hfil1]
        simp
      refine ⟨db.next_id, _, _, heq1, heq2, hfil2, by simp, fun _ => ⟨rfl, by simp⟩⟩

/-- Claim C6 witness: two upserts of ("milk", 1, "l") with labels
"Milk A" then "Milk B" on an empty well-formed catalog. -/
theorem canonical_upsert_same_key_witness :
    CatalogWf ⟨[], 0⟩ ∧ pyStrip "milk" ≠ "" ∧ pyStrip "Milk A" ≠ "" ∧
    pyStrip "Milk B" ≠ "" ∧ (0 : ℚ) < 1 ∧ pyStrip "l" ≠ "" ∧
    ∃ cid db1 db2,
      upsert ⟨[], 0⟩ "milk" "Milk A" 1 "l" = Except.ok (cid, db1) ∧
      upsert db1 "milk" "Milk B" 1 "l" = Except.ok (cid, db2) ∧
      (db2.rows.filter (fun r => r.id = cid)).map (fun r => r.label) = [pyStrip "Milk B"] ∧
      db2.rows.length = db1.rows.length ∧
      (([] : List CanonicalItemRow).find? (canonKey (pyStrip "milk") 1 (pyStrip "l")) = none →
        cid = 0 ∧ db1.rows.length = 0 + 1) :=
  ⟨by decide, by decide, by decide, by decide, by decide, by decide,
    canonical_upsert_same_key ⟨[], 0⟩ "milk" "Milk A" "Milk B" 1 "l"
      (by decide) (by decide) (by decide) (by decide) (by decide) (by decide)⟩

/-- The Extractor collaborator's result for one tracked item, as data:
`scrape_url` either returns (price_cents, title_raw) or raises. -/
inductive ScrapeOutcome where
  | ok (price_cents : Int) (title_raw : Option String)
  | err (msg : String)
deriving DecidableEq

/-- One tracked store item of the ingestion run, paired with its
extraction outcome (the Extractor is out of scope and modelled as
data). -/
structure TrackedItem where
  store_item_id : Int
  outcome : ScrapeOutcome
deriving DecidableEq

/-- The inserted/skipped/failed counters of `cmd_scrape_all`. -/
structure RunCounts where
  inserted : Nat
  skipped : Nat
  failed : Nat
deriving DecidableEq

/-- Embedding of the `cmd_scrape_all` loop (src/app.py lines 88-122):
each tracked item is processed in order inside a try/except; an
extraction failure (or an insert_daily ValueError, which the same
handler catches with the transaction rolled back) increments failed and
the loop continues; otherwise the idempotent insert increments inserted
when it created the row and skipped when the row already existed. -/
def cmd_scrape_all (db : ObsDB) (observed_on : String) :
    List TrackedItem → RunCounts × ObsDB
  | [] => (⟨0, 0, 0⟩, db)
  | it :: rest =>
      match it.outcome with
      | .err _ =>
          let r := cmd_scrape_all db observed_on rest
          (⟨r.1.inserted, r.1.skipped, r.1.failed + 1⟩, r.2)
      | .ok pc title =>
          match insert_daily db it.store_item_id observed_on pc title with
          | .ok (true, db1) =>
              let r := cmd_scrape_all db1 observed_on rest
              (⟨r.1.inserted + 1, r.1.skipped, r.1.failed⟩, r.2)
          | .ok (false, db1) =>
              let r := cmd_scrape_all db1 observed_on rest
              (⟨r.1.inserted, r.1.skipped + 1, r.1.failed⟩, r.2)
          | .error _ =>
              let r := cmd_scrape_all db observed_on rest
              (⟨r.1.inserted, r.1.skipped, r.1.failed + 1⟩, r.2)

/-- Claim C7: the ingestion pipeline processes every tracked item
exactly once and never stops early: the final counts always satisfy
inserted + skipped + failed = number of items; a failing item adds one
to failed and leaves the processing of the remaining items (and the
database) exactly as it would have been, and a successful extraction on
a valid date is counted inserted with the row appended when the
(store_item, date) key was fresh, and skipped with the database
untouched when the key already existed. -/
theorem cmd_scrape_all_never_stops (db : ObsDB) (d : String) (items : List TrackedItem) :
    ((cmd_scrape_all db d items).1.inserted + (cmd_scrape_all db d items).1.skipped
        + (cmd_scrape_all db d items).1.failed = items.length) ∧
    (∀ sid msg rest,
      cmd_scrape_all db d (⟨sid, ScrapeOutcome.err msg⟩ :: rest)
        = (⟨(cmd_scrape_all db d rest).1.inserted, (cmd_scrape_all db d rest).1.skipped,
            (cmd_scrape_all db d rest).1.failed + 1⟩, (cmd_scrape_all db d rest).2)) ∧
    (∀ sid pc t rest, 0 ≤ pc → pyStrip d ≠ "" →
      (db.any (obsKey sid (pyStrip d)) = false →
        cmd_scrape_all db d (⟨sid, ScrapeOutcome.ok pc t⟩ :: rest)
          = (⟨(cmd_scrape_all (db ++ [⟨sid, pyStrip d, pc, t⟩]) d rest).1.inserted + 1,
              (cmd_scrape_all (db ++ [⟨sid, pyStrip d, pc, t⟩]) d rest).1.skipped,
              (cmd_scrape_all (db ++ [⟨sid, pyStrip d, pc, t⟩]) d rest).1.failed⟩,
             (cmd_scrape_all (db ++ [⟨sid, pyStrip d, pc, t⟩]) d rest).2)) ∧
      (db.any (obsKey sid (pyStrip d)) = true →
        cmd_scrape_all db d (⟨sid, ScrapeOutcome.ok pc t⟩ :: rest)
          = (⟨(cmd_scrape_all db d rest).1.inserted,
              (cmd_scrape_all db d rest).1.skipped + 1,
              (cmd_scrape_all db d rest).1.failed⟩, (cmd_scrape_all db d rest).2))) := by
  refine ⟨?_, ?_, ?_⟩
  · induction items generalizing db with
    | nil => simp [cmd_scrape_all]
    | cons it rest ih =>
        cases hout : it.outcome with
        | err msg =>
            simp only [cmd_scrape_all, hout, List.length_cons]
            have := ih db
            omega
        | ok pc title =>
            cases hins : insert_daily db it.store_item_id d pc title with
            | error e =>
                simp only [cmd_scrape_all, hout, hins, List.length_cons]
                have := ih db
                omega
            | ok p =>
                obtain ⟨b, db1⟩ := p
                cases b
                · simp only [cmd_scrape_all, hout, hins, List.length_cons]
                  have := ih db1
                  omega
                · simp only [cmd_scrape_all, hout, hins, List.length_cons]
                  have := ih db1
                  omega
  · intro sid msg rest
    simp [cmd_scrape_all]
  · intro sid pc t rest hpc hd
    constructor
    · intro hfresh
      have hins : insert_daily db sid d pc t
          = Except.ok (true, db ++ [⟨sid, pyStrip d, pc, t⟩]) := by
        simp only [insert_daily]
        rw [if_neg hd, if_neg (not_lt.mpr hpc), if_neg (by simp [hfresh])]
      simp [cmd_scrape_all, hins]
    · intro hdup
      have hins : insert_daily db sid d pc t = Except.ok (false, db) := by
        simp only [insert_daily]
        rw [if_neg hd, if_neg (not_lt.mpr hpc), if_pos (by simp [hdup])]
      simp [cmd_scrape_all, hins]

/-- Claim C7 witness: a two-item run — a failing extraction followed by
a fresh successful one — yields inserted=1, skipped=0, failed=1 with
both items processed. -/
theorem cmd_scrape_all_never_stops_witness :
    (0 : Int) ≤ 199 ∧ pyStrip "2026-10-12" ≠ "" ∧
    ([] : ObsDB).any (obsKey 3 (pyStrip "2026-10-12")) = false ∧
    cmd_scrape_all ([] : ObsDB) "2026-10-12"
        [⟨9, ScrapeOutcome.err "timeout"⟩, ⟨3, ScrapeOutcome.ok 199 (some "Jajca")⟩]
      = (⟨1, 0, 1⟩, [⟨3, "2026-10-12", 199, some "Jajca"⟩]) := by
  refine ⟨by decide, by decide, by decide, ?_⟩
  have hfail := (cmd_scrape_all_never_stops ([] : ObsDB) "2026-10-12"
    [⟨9, ScrapeOutcome.err "timeout"⟩, ⟨3, ScrapeOutcome.ok 199 (some "Jajca")⟩]).2.1
    9 "timeout" [⟨3, ScrapeOutcome.ok 199 (some "Jajca")⟩]
  have hok := ((cmd_scrape_all_never_stops ([] : ObsDB) "2026-10-12"
    [⟨9, ScrapeOutcome.err "timeout"⟩, ⟨3, ScrapeOutcome.ok 199 (some "Jajca")⟩]).2.2
    3 199 (some "Jajca") [] (by decide) (by decide)).1 (by decide)
  rw [hfail, hok]
  decide

/-- One row of the `cmd_cheapest` query (src/app.py lines 243-267): a
store item of the family joined with its latest observation;
price_cents is NULL (none) when the item has no observation yet. -/
structure LatestPriceRow where
  store_name : String
  url : String
  canonical_label : String
  canonical_size : ℚ
  canonical_unit : String
  observed_on : String
  price_cents : Option Int
deriving DecidableEq

/-- One entry of the `observed` list of `cmd_cheapest`. -/
structure CheapestOption where
  store : String
  size : ℚ
  unit : String
  label : String
  eur : ℚ
  observed_on : String
  url : String
  norm_val : ℚ
  norm_unit : String
deriving DecidableEq

/-- The dict built per present row in `cmd_cheapest` (src/app.py lines
287-306): normalized value and unit when the normalizer supports the
unit, else the raw pack price in euros tagged with the original unit. -/
def toCheapestOption (r : LatestPriceRow) (pc : Int) : CheapestOption :=
  let eur : ℚ := (pc : ℚ) / 100
  match compute_normalized_unit_price pc r.canonical_size r.canonical_unit with
  | none => ⟨r.store_name, r.canonical_size, r.canonical_unit, r.canonical_label,
      eur, r.observed_on, r.url, eur, r.canonical_unit⟩
  | some (nv, nu) => ⟨r.store_name, r.canonical_size, r.canonical_unit, r.canonical_label,
      eur, r.observed_on, r.url, nv, nu⟩

/-- The `observed` accumulator of the `cmd_cheapest` loop, in row
order. -/
def cheapest_observed (rows : List LatestPriceRow) : List CheapestOption :=
  rows.filterMap fun r => r.price_cents.map (toCheapestOption r)

/-- The `missing` accumulator of the `cmd_cheapest` loop: the (store,
size, unit) of every row without an observation. -/
def cheapest_missing (rows : List LatestPriceRow) : List (String × ℚ × String) :=
  rows.filterMap fun r =>
    match r.price_cents with
    | none => some (r.store_name, r.canonical_size, r.canonical_unit)
    | some _ => none

/-- Stable insertion of an entry into a list already sorted ascending
by norm_val (equal keys keep their relative order, as in Python's
stable sort). -/
def insertByNorm (x : CheapestOption) : List CheapestOption → List CheapestOption
  | [] => [x]
  | y :: ys => if x.norm_val < y.norm_val then x :: y :: ys else y :: insertByNorm x ys

/-- Embedding of `observed.sort(key=lambda x: x["norm_val"])`
(src/app.py line 314): stable ascending sort by normalized value. -/
def sortByNorm : List CheapestOption → List CheapestOption
  | [] => []
  | x :: xs => insertByNorm x (sortByNorm xs)

/-- `best = observed[0]` after the sort (src/app.py line 315), when any
observation exists. -/
def cmd_cheapest_best (rows : List LatestPriceRow) : Option CheapestOption :=
  (sortByNorm (cheapest_observed rows)).head?

lemma mem_insertByNorm (x e : CheapestOption) (l : List CheapestOption) :
    e ∈ insertByNorm x l ↔ e = x ∨ e ∈ l := by
  induction l with
  | nil => simp [insertByNorm]
  | cons y ys ih =>
      by_cases h : x.norm_val < y.norm_val
      · simp [insertByNorm, h]
      · simp only [insertByNorm, if_neg h, List.mem_cons, ih]
        tauto

lemma mem_sortByNorm (e : CheapestOption) (l : List CheapestOption) :
    e ∈ sortByNorm l ↔ e ∈ l := by
  induction l with
  | nil => simp [sortByNorm]
  | cons x xs ih => simp [sortByNorm, mem_insertByNorm, ih]

lemma sortByNorm_head_min (l : List CheapestOption) (b : CheapestOption)
    (t : List CheapestOption) (hsort : sortByNorm l = b :: t) :
    ∀ e ∈ l, b.norm_val ≤ e.norm_val := by
  induction l generalizing b t with
  | nil => simp [sortByNorm] at hsort
  | cons x xs ih =>
      cases hs : sortByNorm xs with
      | nil =>
          have hempty : xs = [] := by
            cases xs with
            | nil => rfl
            | cons z zs =>
                exfalso
                have : z ∈ sortByNorm (z :: zs) := (mem_sortByNorm z (z :: zs)).mpr
                  (List.mem_cons_self z zs)
                rw [hs] at this
                simp at this
          subst hempty
          simp only [sortByNorm, insertByNorm] at hsort
          obtain ⟨hb, -⟩ := List.cons.inj hsort
          intro e he
          simp only [List.mem_singleton] at he
          subst he
          subst hb
          exact le_refl _
      | cons y ys =>
          have hymin : ∀ e ∈ xs, y.norm_val ≤ e.norm_val := ih y ys hs
          simp only [sortByNorm, hs, insertByNorm] at hsort
          by_cases hxy : x.norm_val < y.norm_val
          · rw [if_pos hxy] at hsort
            obtain ⟨hb, -⟩ := List.cons.inj hsort
            subst hb
            intro e he
            rcases List.mem_cons.mp he with rfl | hexs
            · exact le_refl _
            · exact le_of_lt (lt_of_lt_of_le hxy (hymin e hexs))
          · rw [if_neg hxy] at hsort
            obtain ⟨hb, -⟩ := List.cons.inj hsort
            subst hb
            intro e he
            rcases List.mem_cons.mp he with rfl | hexs
            · exact le_of_not_lt hxy
            · exact hymin e hexs

/-- The spec's cheapest-selection example: Store A sells the 1 L pack
at 199 cents, Store B the 0.5 L pack at 109 cents, both observed. -/
def cheapestExampleRows : List LatestPriceRow :=
  [⟨"Store A", "urlA", "Milk 1 L", 1, "l", "2026-10-11", some 199⟩,
   ⟨"Store B", "urlB", "Milk 0.5 L", 1/2, "l", "2026-10-11", some 109⟩]

/-- Claim C3: the cheapest selector sorts the present latest
observations ascending by normalized unit value and reports the head
as cheapest (its norm_val is minimal over all candidates); rows without
an observation all land in the separate missing list; a candidate with
an unsupported unit enters the candidate list with the raw pack price
in euros as its sort key and the original unit as its tag; and on the
spec's example Store A (1.99 EUR/l) beats Store B (2.18 EUR/l) even
though Store B's raw pack price is lower. -/
theorem cmd_cheapest_sorts_by_normalized (rows : List LatestPriceRow)
    (best : CheapestOption) (hbest : cmd_cheapest_best rows = some best) :
    (∀ e ∈ cheapest_observed rows, best.norm_val ≤ e.norm_val) ∧
    (∀ r ∈ rows, r.price_cents = none →
      (r.store_name, r.canonical_size, r.canonical_unit) ∈ cheapest_missing rows) ∧
    (∀ r ∈ rows, ∀ pc, r.price_cents = some pc →
      compute_normalized_unit_price pc r.canonical_size r.canonical_unit = none →
      toCheapestOption r pc ∈ cheapest_observed rows ∧
      (toCheapestOption r pc).norm_val = (pc : ℚ) / 100 ∧
      (toCheapestOption r pc).norm_unit = r.canonical_unit) ∧
    ((cmd_cheapest_best cheapestExampleRows).map (fun b => (b.store, b.norm_val))
        = some ("Store A", 199/100)) ∧
    ((cheapest_observed cheapestExampleRows).map (fun e => (e.store, e.eur))
        = [("Store A", 199/100), ("Store B", 109/100)]) := by
  refine ⟨?_, ?_, ?_, ?_, ?_⟩
  · intro e he
    cases hs : sortByNorm (cheapest_observed rows) with
    | nil => simp [cmd_cheapest_best, hs] at hbest
    | cons b' t =>
        have hb' : b' = best := by
          simp [cmd_cheapest_best, hs] at hbest
          exact hbest
        subst hb'
        exact sortByNorm_head_min _ _ _ hs e he
  · intro r hr hnone
    simp only [cheapest_missing, List.mem_filterMap]
    exact ⟨r, hr, by rw [hnone]⟩
  · intro r hr pc hpc hunsup
    refine ⟨?_, ?_, ?_⟩
    · simp only [cheapest_observed, List.mem_filterMap]
      exact ⟨r, hr, by rw [hpc]; rfl⟩
    · simp [toCheapestOption, hunsup]
    · simp [toCheapestOption, hunsup]
  · have hA : pyStrip (pyLower "l") = "l" := by decide
    have e199 : compute_normalized_unit_price 199 1 "l" = some (199/100, "l") := by
      norm_num [compute_normalized_unit_price, hA]
    have e109 : compute_normalized_unit_price 109 (2⁻¹ : ℚ) "l" = some (218/100, "l") := by
      norm_num [compute_normalized_unit_price, hA]
    have hlt : (199 : ℚ)/100 < 218/100 := by norm_num
    simp [cmd_cheapest_best, cheapest_observed, cheapestExampleRows, toCheapestOption,
      e199, e109, sortByNorm, insertByNorm, hlt]
  · have hA : pyStrip (pyLower "l") = "l" := by decide
    have e199 : compute_normalized_unit_price 199 1 "l" = some (199/100, "l") := by
      norm_num [compute_normalized_unit_price, hA]
    have e109 : compute_normalized_unit_price 109 (2⁻¹ : ℚ) "l" = some (218/100, "l") := by
      norm_num [compute_normalized_unit_price, hA]
    simp [cheapest_observed, cheapestExampleRows, toCheapestOption, e199, e109]

/-- Claim C3 witness: on the spec's example rows the selector picks
Store A with normalized value 1.99 EUR/l, minimal over both
candidates. -/
theorem cmd_cheapest_sorts_by_normalized_witness :
    cmd_cheapest_best cheapestExampleRows
      = some ⟨"Store A", 1, "l", "Milk 1 L", 199/100, "2026-10-11", "urlA", 199/100, "l"⟩ ∧
    ∀ e ∈ cheapest_observed cheapestExampleRows, (199 : ℚ)/100 ≤ e.norm_val := by
  have hA : pyStrip (pyLower "l") = "l" := by decide
  have e199 : compute_normalized_unit_price 199 1 "l" = some (199/100, "l") := by
    norm_num [compute_normalized_unit_price, hA]
  have e109 : compute_normalized_unit_price 109 (2⁻¹ : ℚ) "l" = some (218/100, "l") := by
    norm_num [compute_normalized_unit_price, hA]
  have hlt : (199 : ℚ)/100 < 218/100 := by norm_num
  have hb : cmd_cheapest_best cheapestExampleRows
      = some ⟨"Store A", 1, "l", "Milk 1 L", 199/100, "2026-10-11", "urlA", 199/100, "l"⟩ := by
    simp [cmd_cheapest_best, cheapest_observed, cheapestExampleRows, toCheapestOption,
      e199, e109, sortByNorm, insertByNorm, hlt]
  refine ⟨hb, ?_⟩
  have h := (cmd_cheapest_sorts_by_normalized cheapestExampleRows _ hb).1
  simpa using h

/-- The per-store accumulators of `cmd_compare_list` at ranking time:
the list of missing "family xqty" strings and the running total in
cents for one store. -/
structure StoreTotals where
  missing : List String
  total_cents : Int
deriving DecidableEq

/-- Embedding of `sort_key` (src/app.py lines 648-652): a store is
ranked by the pair (number of missing families, total cost in
cents). -/
def sort_key (s : StoreTotals) : Nat × Int := (s.missing.length, s.total_cents)

/-- The strict ordering Python's tuple comparison gives `sorted` on the
(missing_count, total_cents) keys: lexicographic. -/
def tupleLt (a b : Nat × Int) : Prop := a.1 < b.1 ∨ (a.1 = b.1 ∧ a.2 < b.2)

instance (a b : Nat × Int) : Decidable (tupleLt a b) := by
  unfold tupleLt
  infer_instance

/-- Stable insertion by strictly smaller sort_key (equal keys keep
their original relative order, matching Python's stable sort). -/
def insertStore (x : StoreTotals) : List StoreTotals → List StoreTotals
  | [] => [x]
  | y :: ys =>
      if tupleLt (sort_key x) (sort_key y) then x :: y :: ys else y :: insertStore x ys

/-- Embedding of `sorted(stores, key=lambda r: sort_key(...))`
(src/app.py line 652): ascending stable sort of the stores by
sort_key. -/
def sortStores : List StoreTotals → List StoreTotals
  | [] => []
  | x :: xs => insertStore x (sortStores xs)

/-- Claim C4: the shopping-list ranking is ascending lexicographic on
(missing-family count, total cents): strictly fewer missing families
ranks above regardless of total, a tie on missing count is broken by
ascending total, and the concrete 1-of-3-missing store (total 5.00 EUR)
sorts after the 0-missing store even though that store's total (9.00
EUR) is higher. -/
theorem compare_list_sort_key_ranking (a b : StoreTotals) :
    (a.missing.length < b.missing.length → tupleLt (sort_key a) (sort_key b)) ∧
    (a.missing.length = b.missing.length →
      (tupleLt (sort_key a) (sort_key b) ↔ a.total_cents < b.total_cents)) ∧
    sortStores [⟨["butter x1"], 500⟩, ⟨[], 900⟩] = [⟨[], 900⟩, ⟨["butter x1"], 500⟩] ∧
    (500 : Int) < 900 := by
  refine ⟨?_, ?_, ?_, by decide⟩
  · intro h
    exact Or.inl h
  · intro h
    simp only [tupleLt, sort_key]
    constructor
    · intro hlt
      rcases hlt with hlt | ⟨-, hlt⟩
      · omega
      · exact hlt
    · intro hlt
      exact Or.inr ⟨h, hlt⟩
  · decide

/-- Claim C4 witness: the comparator theorem applied to the concrete
0-missing (total 900) and 1-missing (total 500) stores. -/
theorem compare_list_sort_key_ranking_witness :
    (⟨[], 900⟩ : StoreTotals).missing.length < (⟨["butter x1"], 500⟩ : StoreTotals).missing.length ∧
    tupleLt (sort_key ⟨[], 900⟩) (sort_key ⟨["butter x1"], 500⟩) :=
  ⟨by decide, (compare_list_sort_key_ranking ⟨[], 900⟩ ⟨["butter x1"], 500⟩).1 (by decide)⟩

/-- The "qty" field of a raw shopping-list entry as the code can see
it: absent (so `it.get("qty", 1)` yields the default 1), an int-parseable
value with `int(qty) = n`, or a value on which `int(qty)` raises (caught
and replaced by 1). -/
inductive QtyField where
  | absent
  | asInt (n : Int)
  | unparseable
deriving DecidableEq

/-- One dict of the shopping list's "items" array: `str(it.get("key",
""))` and the qty field. -/
structure RawListItem where
  key : String
  qty : QtyField
deriving DecidableEq

/-- Embedding of the entry-normalization loop shared by
`cmd_compare_list` (src/app.py lines 529-541) and
`_load_shopping_list` (lines 694-711): trim the key, resolve the
quantity with default 1 (also on parse failure), drop entries with an
empty key or a non-positive quantity, keep (key, qty) otherwise. -/
def normalize_shopping_items (l : List RawListItem) : List (String × Int) :=
  l.filterMap fun it =>
    let key := pyStrip it.key
    let qty : Int :=
      match it.qty with
      | .absent => 1
      | .asInt n => n
      | .unparseable => 1
    if key = "" ∨ qty ≤ 0 then none else some (key, qty)

/-- Claim C8 counterexample: the claim says an entry with an
unparseable quantity is dropped, but the code replaces the failed
`int(qty)` with the default 1 and keeps the entry. -/
theorem shopping_list_counterexample :
    normalize_shopping_items [⟨"milk", QtyField.unparseable⟩] = [("milk", 1)] ∧
    normalize_shopping_items [⟨"milk", QtyField.unparseable⟩] ≠ [] := by
  constructor
  · decide
  · decide

/-- Claim C8 (amended): a missing quantity defaults to 1, and a
quantity on which integer parsing fails also defaults to 1 (the entry
is kept); an entry whose parsed quantity is non-positive, or whose key
is empty after trimming, is dropped without error; every surviving
entry carries its trimmed non-empty key and a positive quantity. -/
theorem shopping_list_normalization (l : List RawListItem) (it : RawListItem) :
    (∀ p ∈ normalize_shopping_items l, p.1 ≠ "" ∧ 0 < p.2) ∧
    (pyStrip it.key = "" → normalize_shopping_items (it :: l) = normalize_shopping_items l) ∧
    (∀ n : Int, it.qty = QtyField.asInt n → n ≤ 0 →
      normalize_shopping_items (it :: l) = normalize_shopping_items l) ∧
    (pyStrip it.key ≠ "" → it.qty = QtyField.absent →
      normalize_shopping_items (it :: l) = (pyStrip it.key, 1) :: normalize_shopping_items l) ∧
    (pyStrip it.key ≠ "" → it.qty = QtyField.unparseable →
      normalize_shopping_items (it :: l) = (pyStrip it.key, 1) :: normalize_shopping_items l) ∧
    (∀ n : Int, 0 < n → pyStrip it.key ≠ "" → it.qty = QtyField.asInt n →
      normalize_shopping_items (it :: l) = (pyStrip it.key, n) :: normalize_shopping_items l) := by
  refine ⟨?_, ?_, ?_, ?_, ?_, ?_⟩
  · intro p hp
    simp only [normalize_shopping_items, List.mem_filterMap] at hp
    obtain ⟨a, -, ha⟩ := hp
    by_cases hc : pyStrip a.key = "" ∨
        (match a.qty with
          | QtyField.absent => (1 : Int)
          | QtyField.asInt n => n
          | QtyField.unparseable => 1) ≤ 0
    · simp [hc] at ha
    · rw [if_neg hc] at ha
      push_neg at hc
      obtain ⟨hk, hq⟩ := hc
      cases ha
      exact ⟨hk, lt_of_not_le (by simpa using hq)⟩
  · intro hk
    simp [normalize_shopping_items, hk]
  · intro n hq hn
    simp [normalize_shopping_items, hq, hn]
  · intro hk hq
    simp [normalize_shopping_items, hq, hk]
  · intro hk hq
    simp [normalize_shopping_items, hq, hk]
  · intro n hn hk hq
    simp [normalize_shopping_items, hq, hk, not_le.mpr hn]

/-- Claim C8 witness: the amended behavior evaluated concretely — an
absent quantity defaults to 1 and a zero quantity is dropped. -/
theorem shopping_list_normalization_witness :
    pyStrip "eggs" ≠ "" ∧
    normalize_shopping_items [⟨"eggs", QtyField.absent⟩] = [("eggs", 1)] ∧
    normalize_shopping_items [⟨"eggs", QtyField.asInt 0⟩] = [] := by
  refine ⟨by decide, ?_, ?_⟩
  · have h := (shopping_list_normalization [] ⟨"eggs", QtyField.absent⟩).2.2.2.1
      (by decide) rfl
    simpa using h
  · have h := ((shopping_list_normalization [] ⟨"eggs", QtyField.asInt 0⟩).2.2.1 0 rfl
      (by decide))
    simpa using h

/-- The method names the class body of ObservationRepo defines
(src/price_tracker/repos/observation_repo.py): Python attribute lookup
on an ObservationRepo instance can resolve exactly these. -/
def observationRepoMethods : List String :=
  ["__init__", "insert_daily", "history_by_canonical_key",
   "latest_two_by_canonical_key", "trend", "fmt_delta"]

/-- Modelled from the spec: schema.sql is not under src/, so the
canonical_item columns are taken from section 3's CanonicalItem {id,
family_key, label, size, unit}, the same columns every other query in
the repository reads and the INSERT in canonical_repo.py writes. -/
def canonicalItemColumns : List String :=
  ["id", "family_key", "label", "size", "unit"]

/-- The canonical_item column the `history_by_canonical_key` query
selects and filters on (`ci.key`, observation_repo.py lines 52 and
60). -/
def historyQueryColumn : String := "key"

/-- Python attribute lookup: the method name resolves on the instance
only when the class body defines it, else AttributeError. -/
def resolveAttr (methods : List String) (name : String) : Option String :=
  if name ∈ methods then some name else none

/-- Embedding of the read path of `cmd_history` (src/app.py lines
154-162): the first statement after constructing the repo resolves and
calls `obs_repo.history_by_family_key`, before anything is printed;
its result would then be printed. The error case carries no output
lines. -/
inductive HistoryResult where
  | attrError (missing : String)
  | printed (lines : List String)
deriving DecidableEq

def cmd_history (key : String) : HistoryResult :=
  match resolveAttr observationRepoMethods "history_by_family_key" with
  | none => HistoryResult.attrError "history_by_family_key"
  | some _ => HistoryResult.printed []

/-- Claim C10: for every family key, `cmd_history` hits an
AttributeError before printing any history — the method it calls,
`history_by_family_key`, is not among the methods ObservationRepo
defines — and the repo's only history method, `history_by_canonical_key`,
reads a `ci.key` column that is not a column of canonical_item in the
family_key data model. -/
theorem cmd_history_attribute_error (key : String) :
    cmd_history key = HistoryResult.attrError "history_by_family_key" ∧
    "history_by_family_key" ∉ observationRepoMethods ∧
    historyQueryColumn ∉ canonicalItemColumns := by
  refine ⟨?_, by decide, by decide⟩
  have h : resolveAttr observationRepoMethods "history_by_family_key" = none := by
    decide
  simp [cmd_history, h]

end PriceTracker
